import Mathlib

/-!
Verification development for the `simply-build` task runner
(`src/lib/Simply.js`).  The class discovers task groups under a tasks
directory and executes each runnable member of a requested group in
order, isolating per-member failures.

Shallow embedding conventions:
* Side effects (console output and child-process invocations) are
  recorded as an `Event` trace; `execSync` is an oracle
  `Env : String → Except String String` mapping a command string to its
  captured stdout (`ok`) or to a launch/non-zero-exit failure (`error`).
* The helper module (`getTasks`, `getConfig`, `scanTasksDir` in
  `helper.js`) is not part of the sources; its results (the task
  catalog, config entry list, and member list of a group) are passed in
  as explicit parameters, and the purely extension-based classification
  it performs is modelled from the spec where a claim needs it.
* JS objects used as string→string maps are modelled as association
  lists with JS assignment semantics (`objSet`): an existing key keeps
  its insertion position and gets the new value, a fresh key is
  appended.  `fs.readFileSync` + `JSON.parse` of a config entry is an
  oracle `ReadConfig` returning the parsed data or a read/parse error.
-/

namespace SimplyBuild

/-- Classification of a catalog entry, as assigned by the scanner
(`item.type` in the source: group, script, binary, config or other). -/
inductive ItemType
  | group
  | script
  | binary
  | config
  | other
  deriving DecidableEq, Repr

/-- A catalog entry: relative path (`item.path`, the lookup key),
absolute path (`item.pathAbs`, used to build commands) and kind. -/
structure Item where
  path : String
  pathAbs : String
  type : ItemType
  deriving DecidableEq, Repr

/-- One observable effect of the runner: a console line or a child
process invocation with the given command string. -/
inductive Event
  | log (msg : String)
  | exec (command : String)
  deriving DecidableEq, Repr

/-- The commands of the process invocations in a trace, in order. -/
def execs : List Event → List String
  | [] => []
  | Event.exec c :: es => c :: execs es
  | Event.log _ :: es => execs es

/-- Oracle for `execSync`: captured stdout on success, failure message
on launch failure or non-zero exit. -/
abbrev Env := String → Except String String

/-- The `try { output = execSync(command); if (output) console.log(output) }
catch (error) { console.log(error) }` block shared by `_execItem` and
`install`: the invocation itself, then its logged outcome. -/
def runCommand (env : Env) (command : String) : List Event :=
  Event.exec command ::
    match env command with
    | Except.ok output => if output = "" then [] else [ Event.log output ]
    | Except.error e => [ Event.log e ]

/-- The interpreter prefix used for script items in `_execItem`. -/
def nodeCmd : String := "node "

/-- The command `_execItem` builds for an item: `node <pathAbs>` for a
script, `<pathAbs>` itself for a binary, none for anything else. -/
def commandOf (item : Item) : Option String :=
  if item.type = ItemType.script then some (nodeCmd ++ item.pathAbs)
  else if item.type = ItemType.binary then some item.pathAbs
  else none

/-- The `- <pathAbs>` line `_execItem` prints before executing. -/
def itemHeader (item : Item) : String := "- " ++ item.pathAbs

/-- `Simply._execItem`: skip non-runnable items before any command is
built; otherwise print the header and run the command, logging either
the captured output or the caught error. -/
def _execItem (env : Env) (item : Item) : List Event :=
  match commandOf item with
  | none => []
  | some command => Event.log (itemHeader item) :: runCommand env command

/-- `Simply._execTask`: run `_execItem` on every member of the group, in
catalog order (`items.forEach(this._execItem.bind(this))`); the member
list is the result of `scanTasksDir` passed in explicitly. -/
def _execTask (env : Env) (members : List Item) : List Event :=
  (members.map (_execItem env)).flatten

/-- `Simply._getTask`: first catalog entry whose relative path equals
the requested name, if any. -/
def _getTask (tasks : List Item) (task : String) : Option Item :=
  tasks.find? (fun t => t.path == task)

/-- Console message for a missing task. -/
def msgNotFound (task : String) : String := "Task " ++ task ++ " not found."

/-- Console message announcing a task run. -/
def msgRunning (task : String) : String :=
  "Running task \"" ++ task ++ "\":"

/-- Console message for an empty task list. -/
def msgNoTasks : String := "No tasks specified."

/-- `Simply.runTask`: resolve the name against the catalog; not found
logs a message and stops, found announces the task and executes the
members delivered by the scanner (`scan`) for the resolved group. -/
def runTask (env : Env) (tasks : List Item) (scan : String → List Item)
    (task : String) : List Event :=
  match _getTask tasks task with
  | none => [ Event.log (msgNotFound task) ]
  | some item => Event.log (msgRunning task) :: _execTask env (scan item.path)

/-- `Simply.run`: log a notice when no names were given, then run each
requested name in the caller's order. -/
def run (env : Env) (tasks : List Item) (scan : String → List Item)
    (names : List String) : List Event :=
  (if names = [] then [ Event.log msgNoTasks ] else []) ++
    (names.map (runTask env tasks scan)).flatten

/- Basic trace lemmas. -/

theorem execs_append (a b : List Event) :
    execs (a ++ b) = execs a ++ execs b := by
  induction a with
  | nil => rfl
  | cons e es ih => cases e <;> simp [execs, ih]

theorem execs_runCommand (env : Env) (c : String) :
    execs (runCommand env c) = [ c ] := by
  unfold runCommand
  cases env c with
  | ok output =>
    by_cases h : output = "" <;> simp [execs, h]
  | error e => simp [execs]

theorem execs_execItem (env : Env) (item : Item) :
    execs (_execItem env item) = (commandOf item).toList := by
  unfold _execItem
  cases h : commandOf item with
  | none => rfl
  | some c =>
    have hstep : execs (Event.log (itemHeader item) :: runCommand env c)
        = execs (runCommand env c) := rfl
    rw [hstep, execs_runCommand]
    rfl

theorem execs_execTask (env : Env) (members : List Item) :
    execs (_execTask env members) = members.filterMap commandOf := by
  induction members with
  | nil => rfl
  | cons m ms ih =>
    simp only [_execTask, List.map_cons, List.flatten_cons]
    simp only [_execTask] at ih
    rw [execs_append, execs_execItem, ih]
    cases h : commandOf m <;> simp [h, List.filterMap_cons]

/- Dependency aggregation (`_getDependencies` and `install`). -/

/-- Parsed content of one config entry: the optional `dependencies` and
`devDependencies` mappings, each an ordered list of
(package, version) pairs as they appear in the file. -/
structure ConfigData where
  dependencies : Option (List (String × String))
  devDependencies : Option (List (String × String))
  deriving DecidableEq, Repr

/-- Oracle for `fs.readFileSync` + `JSON.parse` of a config entry:
parsed data, or the read/parse error that was thrown. -/
abbrev ReadConfig := Item → Except String ConfigData

/-- JS object assignment `obj[k] = v` on a string-keyed object: an
existing key keeps its insertion position and takes the new value, a
fresh key is appended.  (Objects built this way never hold a key
twice, so replacing the first occurrence models JS exactly.) -/
def objSet : List (String × String) → String → String →
    List (String × String)
  | [], k, v => [ (k, v) ]
  | p :: t, k, v => if p.1 = k then (k, v) :: t else p :: objSet t k v

/-- The `for (let key of Object.keys(src)) dest[key] = src[key]` loops
of `_getDependencies`: fold the writes of `src` into `dest`, in order. -/
def mergeObj (dest src : List (String × String)) : List (String × String) :=
  src.foldl (fun d p => objSet d p.1 p.2) dest

/-- Value of a key in a JS-object association list (first matching
pair, which is the unique one for lists built with `objSet`). -/
def lookupDep (m : List (String × String)) (k : String) : Option String :=
  (m.find? (fun p => p.1 == k)).map Prod.snd

/-- Merging one parsed config entry into the accumulated dependencies:
first its `dependencies` mapping (when present), then its
`devDependencies` mapping (when present). -/
def mergeConfig (acc : List (String × String)) (cfg : ConfigData) :
    List (String × String) :=
  let acc1 := match cfg.dependencies with
    | some m => mergeObj acc m
    | none => acc
  match cfg.devDependencies with
  | some m => mergeObj acc1 m
  | none => acc1

/-- The loop of `Simply._getDependencies`, with the accumulated
dependency object made explicit: each config entry is read and parsed;
on success its mappings are merged, on failure the error is logged and
the entry contributes nothing.  Returns the aggregate and the trace. -/
def getDependenciesFrom (rc : ReadConfig) :
    List (String × String) → List Item → List (String × String) × List Event
  | acc, [] => (acc, [])
  | acc, item :: rest =>
    match rc item with
    | Except.ok cfg => getDependenciesFrom rc (mergeConfig acc cfg) rest
    | Except.error e =>
      let r := getDependenciesFrom rc acc rest
      (r.1, Event.log e :: r.2)

/-- `Simply._getDependencies`: aggregate over the config entries
delivered by `getConfig`, starting from the empty object. -/
def _getDependencies (rc : ReadConfig) (items : List Item) :
    List (String × String) × List Event :=
  getDependenciesFrom rc [] items

/-- Specification-side definition (refinement target), following the
spec's words for "later reads overwrite earlier ones on key collision —
last scan wins": the value of a key in a sequence of writes is the one
of the last write with that key, if any. -/
def specLastWins : List (String × String) → String → Option String
  | [], _ => none
  | w :: ws, k =>
    match specLastWins ws k with
    | some v => some v
    | none => if w.1 = k then some w.2 else none

/-- First-some choice on options, used to state the merge lemmas. -/
def orOpt (a b : Option String) : Option String :=
  match a with
  | some v => some v
  | none => b

/-- The write sequence a parsed config entry contributes:
`dependencies` first, then `devDependencies`. -/
def configWrites (cfg : ConfigData) : List (String × String) :=
  (match cfg.dependencies with | some m => m | none => []) ++
    (match cfg.devDependencies with | some m => m | none => [])

/-- The write sequence one config entry contributes to the aggregate:
its parsed writes on success, nothing on a read/parse failure. -/
def itemWrites (rc : ReadConfig) (item : Item) : List (String × String) :=
  match rc item with
  | Except.ok cfg => configWrites cfg
  | Except.error _ => []

theorem orOpt_none_right (a : Option String) : orOpt a none = a := by
  cases a <;> rfl

theorem orOpt_assoc (a b c : Option String) :
    orOpt (orOpt a b) c = orOpt a (orOpt b c) := by
  cases a <;> rfl

theorem specLastWins_append (a b : List (String × String)) (k : String) :
    specLastWins (a ++ b) k = orOpt (specLastWins b k) (specLastWins a k) := by
  induction a with
  | nil => simp [specLastWins, orOpt_none_right]
  | cons w ws ih =>
    rw [List.cons_append]
    simp only [specLastWins]
    rw [ih]
    cases hb : specLastWins b k <;> cases hw : specLastWins ws k <;>
      simp [orOpt]

theorem lookupDep_objSet (m : List (String × String)) (k v k' : String) :
    lookupDep (objSet m k v) k'
      = if k' = k then some v else lookupDep m k' := by
  induction m with
  | nil =>
    by_cases h : k' = k
    · have hb : (k == k') = true := beq_iff_eq.mpr h.symm
      simp [objSet, lookupDep, List.find?, hb, h]
    · have hb : (k == k') = false := by
        simp only [beq_eq_false_iff_ne, ne_eq]
        exact fun hkk => h hkk.symm
      simp [objSet, lookupDep, List.find?, hb, h]
  | cons p t ih =>
    by_cases hp : p.1 = k
    · -- key already present at the head: value replaced in place
      by_cases h : k' = k
      · have hb : (k == k') = true := beq_iff_eq.mpr h.symm
        simp [objSet, if_pos hp, lookupDep, List.find?, hb, h]
      · have hb : (k == k') = false := by
          simp only [beq_eq_false_iff_ne, ne_eq]
          exact fun hkk => h hkk.symm
        have hpb : (p.1 == k') = false := by
          simp only [beq_eq_false_iff_ne, ne_eq, hp]
          exact fun hkk => h hkk.symm
        simp [objSet, if_pos hp, lookupDep, List.find?, hb, hpb, h]
    · by_cases hp' : p.1 = k'
      · have hp'b : (p.1 == k') = true := beq_iff_eq.mpr hp'
        have h : ¬ (k' = k) := fun hkk => hp (hp'.trans hkk)
        simp [objSet, if_neg hp, lookupDep, List.find?, hp'b, h]
      · have hp'b : (p.1 == k') = false := by
          simp only [beq_eq_false_iff_ne, ne_eq]
          exact hp'
        have hL : lookupDep (objSet (p :: t) k v) k'
            = lookupDep (objSet t k v) k' := by
          simp [objSet, if_neg hp, lookupDep, List.find?, hp'b]
        have hR : lookupDep (p :: t) k' = lookupDep t k' := by
          simp [lookupDep, List.find?, hp'b]
        rw [hL, hR, ih]

theorem lookupDep_mergeObj (src dest : List (String × String)) (k : String) :
    lookupDep (mergeObj dest src) k
      = orOpt (specLastWins src k) (lookupDep dest k) := by
  induction src generalizing dest with
  | nil => simp [mergeObj, specLastWins, orOpt]
  | cons w ws ih =>
    simp only [mergeObj, List.foldl_cons]
    have hstep := ih (objSet dest w.1 w.2)
    simp only [mergeObj] at hstep
    rw [hstep, lookupDep_objSet]
    simp only [specLastWins]
    cases hws : specLastWins ws k with
    | some v => simp [orOpt]
    | none =>
      by_cases h : k = w.1
      · subst h
        simp [orOpt]
      · have hw : ¬ (w.1 = k) := fun e => h e.symm
        simp [orOpt, h, hw]

theorem lookupDep_nil (k : String) : lookupDep [] k = none := rfl

theorem lookupDep_mergeConfig (acc : List (String × String))
    (cfg : ConfigData) (k : String) :
    lookupDep (mergeConfig acc cfg) k
      = orOpt (specLastWins (configWrites cfg) k) (lookupDep acc k) := by
  unfold mergeConfig configWrites
  cases hd : cfg.dependencies with
  | none =>
    cases hdd : cfg.devDependencies with
    | none => simp [specLastWins, orOpt]
    | some dd => simp [lookupDep_mergeObj]
  | some d =>
    cases hdd : cfg.devDependencies with
    | none => simp [lookupDep_mergeObj]
    | some dd =>
      rw [lookupDep_mergeObj, lookupDep_mergeObj, ← orOpt_assoc,
        ← specLastWins_append]

theorem getDependenciesFrom_lookup (rc : ReadConfig) (items : List Item) :
    ∀ (acc : List (String × String)) (k : String),
      lookupDep (getDependenciesFrom rc acc items).1 k
        = orOpt (specLastWins ((items.map (itemWrites rc)).flatten) k)
            (lookupDep acc k) := by
  induction items with
  | nil => intro acc k; simp [getDependenciesFrom, specLastWins, orOpt]
  | cons item rest ih =>
    intro acc k
    cases hrc : rc item with
    | ok cfg =>
      have hstep : getDependenciesFrom rc acc (item :: rest)
          = getDependenciesFrom rc (mergeConfig acc cfg) rest := by
        simp [getDependenciesFrom, hrc]
      have hw : itemWrites rc item = configWrites cfg := by
        simp [itemWrites, hrc]
      rw [hstep, ih, lookupDep_mergeConfig, List.map_cons,
        List.flatten_cons, hw, specLastWins_append, orOpt_assoc]
    | error e =>
      have hstep : (getDependenciesFrom rc acc (item :: rest)).1
          = (getDependenciesFrom rc acc rest).1 := by
        simp [getDependenciesFrom, hrc]
      have hw : itemWrites rc item = [] := by
        simp [itemWrites, hrc]
      rw [hstep, ih, List.map_cons, List.flatten_cons, hw,
        List.nil_append]

theorem getDependenciesFrom_error_skip (rc : ReadConfig) (bad : Item)
    (e : String) (hbad : rc bad = Except.error e) (pre post : List Item) :
    ∀ acc : List (String × String),
      (getDependenciesFrom rc acc (pre ++ bad :: post)).1
        = (getDependenciesFrom rc acc (pre ++ post)).1 ∧
      Event.log e ∈ (getDependenciesFrom rc acc (pre ++ bad :: post)).2 := by
  induction pre with
  | nil =>
    intro acc
    constructor
    · simp [getDependenciesFrom, hbad]
    · simp [getDependenciesFrom, hbad]
  | cons i t ih =>
    intro acc
    cases hrc : rc i with
    | ok cfg =>
      have h := ih (mergeConfig acc cfg)
      constructor
      · simpa [getDependenciesFrom, hrc] using h.1
      · simpa [getDependenciesFrom, hrc] using h.2
    | error e2 =>
      have h := ih acc
      constructor
      · simpa [getDependenciesFrom, hrc] using h.1
      · simp only [List.cons_append, getDependenciesFrom, hrc]
        exact List.mem_cons_of_mem _ h.2

theorem execs_getDependenciesFrom (rc : ReadConfig) (items : List Item) :
    ∀ acc : List (String × String),
      execs (getDependenciesFrom rc acc items).2 = [] := by
  induction items with
  | nil => intro acc; rfl
  | cons item rest ih =>
    intro acc
    cases hrc : rc item with
    | ok cfg => simpa [getDependenciesFrom, hrc] using ih (mergeConfig acc cfg)
    | error e =>
      have h := ih acc
      simp only [getDependenciesFrom, hrc, execs]
      exact h

/- `Simply.install`. -/

/-- Console message opening `install`. -/
def msgInstalling : String := "Installing task dependencies..."

/-- The `-D` suffix appended to the npm command when `save` is set. -/
def saveSuffix (save : Bool) : String := if save then " -D" else ""

/-- The package-manager command built for one dependency:
`npm i <name>@<version>` plus the optional save suffix. -/
def installCmd (save : Bool) (k v : String) : String :=
  "npm i " ++ k ++ "@" ++ v ++ saveSuffix save

/-- `Simply.install`: announce, aggregate the dependencies (logging
read/parse errors), then for each aggregated dependency log and run its
npm command, logging the captured output or the caught error. -/
def install (env : Env) (rc : ReadConfig) (items : List Item)
    (save : Bool) : List Event :=
  let r := _getDependencies rc items
  Event.log msgInstalling ::
    (r.2 ++
      (r.1.map (fun p =>
        Event.log (installCmd save p.1 p.2)
          :: runCommand env (installCmd save p.1 p.2))).flatten)

theorem execs_installLoop (env : Env) (save : Bool)
    (deps : List (String × String)) :
    execs ((deps.map (fun p =>
        Event.log (installCmd save p.1 p.2)
          :: runCommand env (installCmd save p.1 p.2))).flatten)
      = deps.map (fun p => installCmd save p.1 p.2) := by
  induction deps with
  | nil => rfl
  | cons p t ih =>
    simp only [List.map_cons, List.flatten_cons]
    rw [execs_append]
    have hhead : execs (Event.log (installCmd save p.1 p.2)
        :: runCommand env (installCmd save p.1 p.2))
        = execs (runCommand env (installCmd save p.1 p.2)) := rfl
    rw [hhead, execs_runCommand, ih]
    rfl

/- Constructor defaults and extension-based classification. -/

/-- The optional configuration object passed to the `Simply`
constructor; `none` models an absent option. -/
structure SimplyConfig where
  rootDir : Option String := none
  tasksDir : Option String := none
  extBinary : Option (List String) := none
  extScript : Option (List String) := none
  extConfig : Option (List String) := none
  deriving DecidableEq, Repr

/-- Configuration after the constructor's defaulting
(`config.X = config.X || <default>`). -/
structure ResolvedConfig where
  rootDir : String
  tasksDir : String
  extBinary : List String
  extScript : List String
  extConfig : List String
  deriving DecidableEq, Repr

/-- The defaulting performed by the `Simply` constructor: an absent
option is replaced by its default (`process.cwd()` for the root,
`tasks` for the tasks directory, and the three extension sets). -/
def defaultedConfig (cwd : String) (config : SimplyConfig) : ResolvedConfig :=
  { rootDir := config.rootDir.getD cwd
    tasksDir := config.tasksDir.getD "tasks"
    extBinary := config.extBinary.getD [ "", "sh", "bat", "exe" ]
    extScript := config.extScript.getD [ "js" ]
    extConfig := config.extConfig.getD [ "json" ] }

/-- The dot character separating a file name from its extension. -/
def dotChar : Char := '.'

/-- Modelled from the spec: the extension extraction performed by the
scanner in `helper.js` (not part of the sources).  Returns the
characters after the last dot of a name, or `none` when the name has no
dot. -/
def afterLastDot : List Char → Option (List Char)
  | [] => none
  | c :: cs =>
    match afterLastDot cs with
    | some e => some e
    | none => if c = dotChar then some cs else none

/-- Modelled from the spec: the extension of a file name — the part
after the last dot, or the empty string for a name with no dot (so a
file named `run` has extension `""`). -/
def extOf (name : String) : String :=
  match afterLastDot name.toList with
  | some e => String.mk e
  | none => ""

/-- Modelled from the spec: the purely extension-based classification
performed by the scanner in `helper.js` (not part of the sources) —
extension in the binary set → `Binary`, in the script set → `Script`,
in the config set → `Config`, anything else → `Other`. -/
def classify (extBinary extScript extConfig : List String)
    (ext : String) : ItemType :=
  if extBinary.contains ext then ItemType.binary
  else if extScript.contains ext then ItemType.script
  else if extConfig.contains ext then ItemType.config
  else ItemType.other

/- Helper lemmas for the claim theorems. -/

theorem log_error_mem_runCommand (env : Env) (c e : String)
    (h : env c = Except.error e) : Event.log e ∈ runCommand env c := by
  simp [runCommand, h]

theorem log_error_mem_execItem (env : Env) (item : Item) (c e : String)
    (hc : commandOf item = some c) (he : env c = Except.error e) :
    Event.log e ∈ _execItem env item := by
  simp only [_execItem, hc]
  exact List.mem_cons_of_mem _ (log_error_mem_runCommand env c e he)

theorem filterMap_commandOf_eq (ms : List Item) :
    ms.filterMap commandOf
      = (ms.filter (fun m => m.type == ItemType.script
          || m.type == ItemType.binary)).map
          (fun m => if m.type = ItemType.script
            then nodeCmd ++ m.pathAbs else m.pathAbs) := by
  induction ms with
  | nil => rfl
  | cons m t ih =>
    cases htype : m.type <;>
      simp [commandOf, htype, List.filterMap_cons, List.filter_cons, ih]

/- Concrete fixtures used by the witnesses. -/

/-- Fixture: script member `a.js` of group `deploy`. -/
def wA : Item :=
  { path := "deploy/a.js", pathAbs := "/tasks/deploy/a.js",
    type := ItemType.script }

/-- Fixture: script member `b.js` of group `deploy`. -/
def wB : Item :=
  { path := "deploy/b.js", pathAbs := "/tasks/deploy/b.js",
    type := ItemType.script }

/-- Fixture: binary member `run` (no extension) of group `deploy`. -/
def wBin : Item :=
  { path := "deploy/run", pathAbs := "/tasks/deploy/run",
    type := ItemType.binary }

/-- Fixture: config member of group `deploy`, never executed. -/
def wCfg : Item :=
  { path := "deploy/config.json", pathAbs := "/tasks/deploy/config.json",
    type := ItemType.config }

/-- Fixture: unclassified member of group `deploy`, never executed. -/
def wOther : Item :=
  { path := "deploy/readme.md", pathAbs := "/tasks/deploy/readme.md",
    type := ItemType.other }

/-- Fixture: a mixed member list in catalog order. -/
def wMembers : List Item := [ wA, wCfg, wB, wBin, wOther ]

/-- Fixture: failure message of the failing child process. -/
def wErr : String := "Error: Command failed"

/-- Fixture: an environment in which every child process fails. -/
def wEnv : Env := fun _ => Except.error wErr

/-- Fixture: the group catalog, holding the single group `deploy`. -/
def wTasks : List Item :=
  [ { path := "deploy", pathAbs := "/tasks/deploy", type := ItemType.group } ]

/-- Fixture: the scanner, yielding the members of `deploy`. -/
def wScan : String → List Item := fun g =>
  if g = "deploy" then wMembers else []

/-- Fixture: a task name matching no catalog entry. -/
def wMissing : String := "publish"

/- Claim theorems. -/

/-- C1: for every group member list and environment, a failing member
(non-zero exit or launch failure) is caught and its error reported,
and the trace of attempted invocations is still exactly the commands
of all runnable members in catalog order — independent of where
failures occur, so no member ends the loop early. -/
theorem execTask_failure_isolated (env : Env) (members : List Item)
    (m : Item) (hm : m ∈ members) (c e : String)
    (hc : commandOf m = some c) (he : env c = Except.error e) :
    execs (_execTask env members) = members.filterMap commandOf ∧
    Event.log e ∈ _execTask env members := by
  refine ⟨execs_execTask env members, ?_⟩
  have hblock : _execItem env m ∈ members.map (_execItem env) :=
    List.mem_map_of_mem _ hm
  have hmem : Event.log e ∈ (members.map (_execItem env)).flatten :=
    List.mem_flatten.mpr
      ⟨_execItem env m, hblock, log_error_mem_execItem env m c e hc he⟩
  simpa [_execTask] using hmem

theorem execTask_failure_isolated_witness :
    execs (_execTask wEnv wMembers) = wMembers.filterMap commandOf ∧
    Event.log wErr ∈ _execTask wEnv wMembers :=
  execTask_failure_isolated wEnv wMembers wB (by decide)
    (nodeCmd ++ wB.pathAbs) wErr (by decide) rfl

/-- C2: running a group attempts one process invocation per member of
kind Script or Binary, in catalog order, and a member of kind Config or
Other produces no event at all — it is skipped before any command is
built or run. -/
theorem execTask_invokes_exactly_runnable (env : Env) (members : List Item) :
    execs (_execTask env members)
      = (members.filter (fun m => m.type == ItemType.script
          || m.type == ItemType.binary)).map
          (fun m => if m.type = ItemType.script
            then nodeCmd ++ m.pathAbs else m.pathAbs) ∧
    ∀ m ∈ members, m.type = ItemType.config ∨ m.type = ItemType.other →
      _execItem env m = [] := by
  constructor
  · rw [execs_execTask, filterMap_commandOf_eq]
  · intro m _ h
    cases h with
    | inl h => simp [_execItem, commandOf, h]
    | inr h => simp [_execItem, commandOf, h]

theorem execTask_invokes_exactly_runnable_witness :
    execs (_execTask wEnv wMembers)
      = (wMembers.filter (fun m => m.type == ItemType.script
          || m.type == ItemType.binary)).map
          (fun m => if m.type = ItemType.script
            then nodeCmd ++ m.pathAbs else m.pathAbs) ∧
    _execItem wEnv wCfg = [] :=
  ⟨(execTask_invokes_exactly_runnable wEnv wMembers).1,
    (execTask_invokes_exactly_runnable wEnv wMembers).2 wCfg (by decide)
      (Or.inl rfl)⟩

/-- C3: a requested name matching no catalog entry makes `runTask`
log the not-found message and nothing else: zero process invocations,
no member scanning or execution. -/
theorem runTask_not_found (env : Env) (tasks : List Item)
    (scan : String → List Item) (task : String)
    (h : ∀ t ∈ tasks, ¬ (t.path = task)) :
    runTask env tasks scan task = [ Event.log (msgNotFound task) ] ∧
    execs (runTask env tasks scan task) = [] := by
  have hfind : _getTask tasks task = none := by
    unfold _getTask
    apply List.find?_eq_none.mpr
    intro t ht
    simpa using h t ht
  exact ⟨by simp [runTask, hfind], by simp [runTask, hfind, execs]⟩

theorem runTask_not_found_witness :
    runTask wEnv wTasks wScan wMissing
      = [ Event.log (msgNotFound wMissing) ] ∧
    execs (runTask wEnv wTasks wScan wMissing) = [] :=
  runTask_not_found wEnv wTasks wScan wMissing (by decide)

/-- C4: `run` processes the requested names in the caller's order, and
a failure for one name — here task-not-found — contributes only its own
report: the traces of every earlier and every later name still appear
unchanged around it. -/
theorem run_not_found_does_not_block (env : Env) (tasks : List Item)
    (scan : String → List Item) (pre rest : List String) (n : String)
    (h : _getTask tasks n = none) :
    run env tasks scan (pre ++ n :: rest)
      = (pre.map (runTask env tasks scan)).flatten
        ++ Event.log (msgNotFound n)
          :: (rest.map (runTask env tasks scan)).flatten := by
  have hne : ¬ (pre ++ n :: rest = []) := by simp
  simp [run, hne, List.map_append, List.flatten_append,
    List.flatten_cons, runTask, h]

theorem run_not_found_does_not_block_witness :
    run wEnv wTasks wScan ([ "deploy" ] ++ wMissing :: [ "deploy" ])
      = ([ "deploy" ].map (runTask wEnv wTasks wScan)).flatten
        ++ Event.log (msgNotFound wMissing)
          :: ([ "deploy" ].map (runTask wEnv wTasks wScan)).flatten :=
  run_not_found_does_not_block wEnv wTasks wScan [ "deploy" ] [ "deploy" ]
    wMissing (by decide)

/-- C5: an executed Script member is invoked as the `node` interpreter
followed by the script's absolute path as its sole argument, and an
executed Binary member's absolute path is the whole command — no
interpreter prefix. -/
theorem execItem_command_shape (env : Env) (item : Item) :
    (item.type = ItemType.script →
      execs (_execItem env item) = [ nodeCmd ++ item.pathAbs ]) ∧
    (item.type = ItemType.binary →
      execs (_execItem env item) = [ item.pathAbs ]) := by
  constructor
  · intro h
    rw [execs_execItem]
    simp [commandOf, h]
  · intro h
    rw [execs_execItem]
    simp [commandOf, h]

theorem execItem_command_shape_witness :
    execs (_execItem wEnv wA) = [ nodeCmd ++ wA.pathAbs ] ∧
    execs (_execItem wEnv wBin) = [ wBin.pathAbs ] :=
  ⟨(execItem_command_shape wEnv wA).1 rfl,
    (execItem_command_shape wEnv wBin).2 rfl⟩

/- Fixtures for the dependency-aggregation claims. -/

/-- Fixture: config entry of group `groupA`. -/
def cfgA : Item :=
  { path := "groupA/config.json", pathAbs := "/tasks/groupA/config.json",
    type := ItemType.config }

/-- Fixture: config entry of group `groupB`. -/
def cfgB : Item :=
  { path := "groupB/config.json", pathAbs := "/tasks/groupB/config.json",
    type := ItemType.config }

/-- Fixture: an unreadable config entry of group `groupC`. -/
def cfgBad : Item :=
  { path := "groupC/config.json", pathAbs := "/tasks/groupC/config.json",
    type := ItemType.config }

/-- Fixture: the parse error thrown for the unreadable entry. -/
def wReadErr : String := "SyntaxError: Unexpected token"

/-- Fixture: a reader in which `groupA` pins `x` to 1.0.0, `groupB`
pins `x` to 2.0.0 and adds `y`, and anything else fails to parse. -/
def wRC : ReadConfig := fun item =>
  if item = cfgA then
    Except.ok { dependencies := some [ ("x", "1.0.0") ],
                devDependencies := none }
  else if item = cfgB then
    Except.ok { dependencies := some [ ("x", "2.0.0") ],
                devDependencies := some [ ("y", "3.0.0") ] }
  else Except.error wReadErr

/-- Fixture: the well-formed config entries, `groupA` scanned first. -/
def wConfigs : List Item := [ cfgA, cfgB ]

/-- Fixture: a config entry declaring `x` in both `dependencies`
(1.0.0) and `devDependencies` (2.0.0). -/
def cfgBoth : Item :=
  { path := "groupD/config.json", pathAbs := "/tasks/groupD/config.json",
    type := ItemType.config }

/-- Fixture: the parsed data of `cfgBoth`. -/
def wBothData : ConfigData :=
  { dependencies := some [ ("x", "1.0.0") ],
    devDependencies := some [ ("x", "2.0.0") ] }

/-- Fixture: a reader returning `wBothData` for every entry. -/
def wRCBoth : ReadConfig := fun _ => Except.ok wBothData

/-- C6: the aggregate maps every package key to the value of the last
write for that key across all config entries in scan order — each entry
contributing its `dependencies` then its `devDependencies` — so on a
key collision the entry read later overwrites the earlier one
(last scan wins; versions are never compared). -/
theorem getDependencies_last_scan_wins (rc : ReadConfig)
    (items : List Item) (k : String) :
    lookupDep (_getDependencies rc items).1 k
      = specLastWins ((items.map (itemWrites rc)).flatten) k := by
  have h := getDependenciesFrom_lookup rc items [] k
  rw [show lookupDep (_getDependencies rc items).1 k
        = lookupDep (getDependenciesFrom rc [] items).1 k from rfl,
    h, lookupDep_nil, orOpt_none_right]

/-- C7: a config entry whose read or parse fails is reported and
contributes nothing: the aggregate equals the one built from the
remaining entries alone, and the error appears in the trace. -/
theorem getDependencies_failure_isolated (rc : ReadConfig)
    (pre post : List Item) (bad : Item) (e : String)
    (hbad : rc bad = Except.error e) :
    (_getDependencies rc (pre ++ bad :: post)).1
      = (_getDependencies rc (pre ++ post)).1 ∧
    Event.log e ∈ (_getDependencies rc (pre ++ bad :: post)).2 :=
  getDependenciesFrom_error_skip rc bad e hbad pre post []

theorem getDependencies_failure_isolated_witness :
    (_getDependencies wRC ([ cfgA ] ++ cfgBad :: [ cfgB ])).1
      = (_getDependencies wRC ([ cfgA ] ++ [ cfgB ])).1 ∧
    Event.log wReadErr ∈ (_getDependencies wRC ([ cfgA ] ++ cfgBad :: [ cfgB ])).2 :=
  getDependencies_failure_isolated wRC [ cfgA ] [ cfgB ] cfgBad wReadErr rfl

/-- C8: `install` issues exactly one package-manager invocation
`npm i <name>@<version>` (with the save suffix when `save` is set) per
aggregated dependency, in aggregate order, whatever the environment
does — so a failing invocation for one dependency, which is caught and
its error logged, does not abort the remaining installations. -/
theorem install_failure_isolated (env : Env) (rc : ReadConfig)
    (items : List Item) (save : Bool) (k v e : String)
    (hkv : (k, v) ∈ (_getDependencies rc items).1)
    (he : env (installCmd save k v) = Except.error e) :
    execs (install env rc items save)
      = (_getDependencies rc items).1.map
          (fun p => installCmd save p.1 p.2) ∧
    Event.log e ∈ install env rc items save := by
  constructor
  · have hlog : execs (install env rc items save)
        = execs ((_getDependencies rc items).2
            ++ ((_getDependencies rc items).1.map (fun p =>
              Event.log (installCmd save p.1 p.2)
                :: runCommand env (installCmd save p.1 p.2))).flatten) := rfl
    rw [hlog, execs_append, execs_installLoop,
      show execs (_getDependencies rc items).2 = [] from
        execs_getDependenciesFrom rc items [],
      List.nil_append]
  · have hblock : Event.log (installCmd save k v)
        :: runCommand env (installCmd save k v)
        ∈ (_getDependencies rc items).1.map (fun p =>
            Event.log (installCmd save p.1 p.2)
              :: runCommand env (installCmd save p.1 p.2)) := by
      have h := List.mem_map_of_mem (fun p : String × String =>
        Event.log (installCmd save p.1 p.2)
          :: runCommand env (installCmd save p.1 p.2)) hkv
      simpa using h
    have hin : Event.log e ∈ ((_getDependencies rc items).1.map (fun p =>
        Event.log (installCmd save p.1 p.2)
          :: runCommand env (installCmd save p.1 p.2))).flatten :=
      List.mem_flatten.mpr ⟨_, hblock,
        List.mem_cons_of_mem _ (log_error_mem_runCommand env _ e he)⟩
    exact List.mem_cons_of_mem _ (List.mem_append_right _ hin)

theorem install_failure_isolated_witness :
    execs (install wEnv wRC wConfigs true)
      = (_getDependencies wRC wConfigs).1.map
          (fun p => installCmd true p.1 p.2) ∧
    Event.log wErr ∈ install wEnv wRC wConfigs true :=
  install_failure_isolated wEnv wRC wConfigs true "x" "2.0.0" wErr
    (by decide) rfl

/-- C9: constructed without explicit extension configuration, the
defaults are exactly binary = { "", sh, bat, exe }, script = { js } and
config = { json }; in particular the empty-string member makes a file
with no extension — such as one named exactly `run` — classify as
Binary, and such an item is executed as a direct program invocation
with no interpreter prefix. -/
theorem default_extension_sets (cwd : String) :
    (defaultedConfig cwd {}).extBinary = [ "", "sh", "bat", "exe" ] ∧
    (defaultedConfig cwd {}).extScript = [ "js" ] ∧
    (defaultedConfig cwd {}).extConfig = [ "json" ] ∧
    classify (defaultedConfig cwd {}).extBinary
        (defaultedConfig cwd {}).extScript
        (defaultedConfig cwd {}).extConfig (extOf "run")
      = ItemType.binary ∧
    ∀ env : Env, ∀ pathAbs relPath : String,
      execs (_execItem env
        { path := relPath, pathAbs := pathAbs,
          type := classify (defaultedConfig cwd {}).extBinary
            (defaultedConfig cwd {}).extScript
            (defaultedConfig cwd {}).extConfig (extOf "run") })
        = [ pathAbs ] := by
  have ht : classify (defaultedConfig cwd {}).extBinary
      (defaultedConfig cwd {}).extScript
      (defaultedConfig cwd {}).extConfig (extOf "run")
      = ItemType.binary := by
    show classify [ "", "sh", "bat", "exe" ] [ "js" ] [ "json" ]
      (extOf "run") = ItemType.binary
    decide
  refine ⟨rfl, rfl, rfl, ht, ?_⟩
  intro env pathAbs relPath
  rw [ht, execs_execItem]
  simp [commandOf]

/-- C10: within one config entry declaring the same package in both
mappings, the aggregate keeps the `devDependencies` value, because the
entry's `devDependencies` mapping is merged after its `dependencies`
mapping. -/
theorem devDependencies_override_dependencies (rc : ReadConfig)
    (item : Item) (cfg : ConfigData)
    (deps devDeps : List (String × String)) (k v1 v2 : String)
    (hrc : rc item = Except.ok cfg)
    (hdeps : cfg.dependencies = some deps)
    (hdev : cfg.devDependencies = some devDeps)
    (hv1 : lookupDep deps k = some v1)
    (hv2 : specLastWins devDeps k = some v2) :
    lookupDep (_getDependencies rc [ item ]).1 k = some v2 := by
  have hstep : (_getDependencies rc [ item ]).1 = mergeConfig [] cfg := by
    simp [_getDependencies, getDependenciesFrom, hrc]
  have hw : configWrites cfg = deps ++ devDeps := by
    simp [configWrites, hdeps, hdev]
  rw [hstep, lookupDep_mergeConfig, hw, specLastWins_append, hv2]
  rfl

theorem devDependencies_override_dependencies_witness :
    lookupDep (_getDependencies wRCBoth [ cfgBoth ]).1 "x" = some "2.0.0" :=
  devDependencies_override_dependencies wRCBoth cfgBoth wBothData
    [ ("x", "1.0.0") ] [ ("x", "2.0.0") ] "x" "1.0.0" "2.0.0"
    rfl rfl rfl (by decide) (by decide)

end SimplyBuild
